import Mathlib

/-
  Shallow embedding of the DHT11 driver (src/dht11.rs).

  The physical pin is modelled as a trace `pin : Nat → Bool` giving the level
  (`true` = high) observed by each successive poll of the line; every
  `is_high()` / `is_low()` call in the source consumes one index of the trace.
  The monotonic millisecond clock is modelled as `clock : Nat → Nat`, giving
  the value of `Instant::now().as_millis()` at the k-th invocation of `step`
  (each `step` arm reads the clock at most once).  Timer waits and pin output
  operations (`set_high`, `set_low`, `set_output_enable`, `set_input_enable`)
  neither read the line nor the clock, so they leave no trace in the model.

  Machine integers: all cycle counts are bounded by `max_cycles = 10000` and
  all frame bytes are kept below 256 by reducing modulo 256 exactly where the
  Rust `u8` operations wrap (`<<= 1` and the wrapping `iter().sum::<u8>()`),
  so `Nat` represents `u32`/`u8`/`u64` faithfully on the reachable values.
  The `f32` fields of `Dht11Measurement` are sums of two bytes (< 512), which
  `f32` represents exactly, so they are modelled as `Nat`.
-/

set_option maxRecDepth 4000

namespace DhtDriver

/-- Source constant `COOLDOWN_TIME_MS: u64 = 2000`. -/
def COOLDOWN_TIME_MS : Nat := 2000

/-- The source `enum DhtState`. -/
inductive DhtState where
  | Idle
  | Init
  | BeginMeasurement
  | Read
  | Cooldown
  deriving DecidableEq

/-- The source `enum Dht11Error`. -/
inductive Dht11Error where
  | Data
  | ReplyHeaderMissing
  | Timeout
  | Checksum
  deriving DecidableEq

/-- The source `struct Dht11Measurement` with fields `humidity: f32` and `temperature: f32`.  Both fields
are sums of two raw bytes, hence integers below 512, which `f32` holds exactly;
they are modelled as `Nat`. -/
structure Dht11Measurement where
  humidity : Nat
  temperature : Nat
  deriving DecidableEq

/-- The source `struct Dht11`, minus the owned pin handle (the pin lives
in the environment as a trace).  `data` is the 5-byte raw frame. -/
structure Dht11 where
  data : List Nat
  state : DhtState
  max_cycles : Nat
  dht_timestamp : Nat
  deriving DecidableEq

/-- Constructor `Dht11::new`: cleared frame, `Idle`, `max_cycles: 10000`, timestamp 0. -/
def Dht11.new : Dht11 :=
  { data := List.replicate 5 0
    state := DhtState.Idle
    max_cycles := 10000
    dht_timestamp := 0 }

/-- Source method `Dht11::read_temperature`: `data[2] as f32 + data[3] as f32` (exact on
bytes, so modelled as the natural-number sum). -/
def read_temperature (data : List Nat) : Nat :=
  data.getD 2 0 + data.getD 3 0

/-- Source method `Dht11::read_humidity`: `data[0] as f32 + data[1] as f32`. -/
def read_humidity (data : List Nat) : Nat :=
  data.getD 0 0 + data.getD 1 0

/-- Loop body of `Dht11::pulse_count`.  `remaining` is `max_cycles - count`;
each poll consumes one trace index.  A poll that still sees `level` increments
the counter and triggers `Timeout` once the counter reaches `max_cycles`; the
first poll that sees the other level ends the pulse and returns the count. -/
def pulse_count_aux (level : Bool) (pin : Nat → Bool) :
    Nat → Nat → Except Dht11Error (Nat × Nat)
  | 0, idx =>
    if pin idx = level then .error .Timeout else .ok (0, idx + 1)
  | remaining + 1, idx =>
    if pin idx = level then
      if remaining = 0 then .error .Timeout
      else
        match pulse_count_aux level pin remaining (idx + 1) with
        | .ok (c, idx2) => .ok (c + 1, idx2)
        | .error e => .error e
    else .ok (0, idx + 1)

/-- Source method `Dht11::pulse_count(level)`, with the driver's `max_cycles` and the current
position in the poll trace passed explicitly. -/
def pulse_count (level : Bool) (pin : Nat → Bool) (max_cycles idx : Nat) :
    Except Dht11Error (Nat × Nat) :=
  pulse_count_aux level pin max_cycles idx

/-- The `for i in (0..80).step_by(2)` loop of `read_data`: measure `n`
(low, high) cycle-count pairs, or propagate the first pulse error. -/
def measure_pairs (pin : Nat → Bool) (max_cycles : Nat) :
    Nat → Nat → Except Dht11Error (List (Nat × Nat) × Nat)
  | 0, idx => .ok ([], idx)
  | n + 1, idx =>
    match pulse_count false pin max_cycles idx with
    | .error e => .error e
    | .ok (lo, idx1) =>
      match pulse_count true pin max_cycles idx1 with
      | .error e => .error e
      | .ok (hi, idx2) =>
        match measure_pairs pin max_cycles n idx2 with
        | .error e => .error e
        | .ok (rest, idxf) => .ok ((lo, hi) :: rest, idxf)

/-- One iteration of the bit-packing loop body:
`data[j] <<= 1; if bit { data[j] |= 1 }` on `u8` (shift wraps mod 256; the
or on an even value adds the bit). -/
def push_bit (data : List Nat) (j : Nat) (b : Bool) : List Nat :=
  data.set j ((data.getD j 0 * 2) % 256 + if b then 1 else 0)

/-- The `for i in 0..40` decode loop of `read_data`: walk the measured pairs,
fail with `Data` on a zero-length pulse, otherwise push the bit
`high_cycles > low_cycles` into byte `i / 8`.  Returns the (possibly
partially) updated frame together with the error, mirroring the in-place
mutation of `self.data`. -/
def decode_bits_from : Nat → List (Nat × Nat) → List Nat → List Nat × Option Dht11Error
  | _, [], data => (data, none)
  | i, (lo, hi) :: rest, data =>
    if lo = 0 ∨ hi = 0 then (data, some .Data)
    else decode_bits_from (i + 1) rest (push_bit data (i / 8) (decide (lo < hi)))

/-- Source method `Dht11::checksum`: `data[4] == data[0..=3].iter().sum::<u8>()`, the sum
taken with `u8` wraparound (mod 256). -/
def checksum (data : List Nat) : Except Dht11Error Unit :=
  if data.getD 4 0 = (data.getD 0 0 + data.getD 1 0 + data.getD 2 0 + data.getD 3 0) % 256 then
    .ok ()
  else .error .Checksum

/-- Source method `Dht11::read_data`, over the poll trace.  Returns the frame (reflecting
any in-place mutation), the next free trace index, and the error if any.  The
trace index paired with an error is never consulted by the caller (an error
aborts the whole measurement), so errors keep the last well-defined index. -/
def read_data (pin : Nat → Bool) (max_cycles : Nat) (data : List Nat) (idx : Nat) :
    List Nat × Nat × Option Dht11Error :=
  match pulse_count false pin max_cycles idx with
  | .error e => (data, idx, some e)
  | .ok (c1, idx1) =>
    if c1 = 0 then (data, idx1, some .ReplyHeaderMissing)
    else
      match pulse_count true pin max_cycles idx1 with
      | .error e => (data, idx1, some e)
      | .ok (c2, idx2) =>
        if c2 = 0 then (data, idx2, some .ReplyHeaderMissing)
        else
          match measure_pairs pin max_cycles 40 idx2 with
          | .error e => (data, idx2, some e)
          | .ok (pairs, idx3) =>
            match decode_bits_from 0 pairs data with
            | (data2, some e) => (data2, idx3, some e)
            | (data2, none) =>
              match checksum data2 with
              | .ok _ => (data2, idx3, none)
              | .error e => (data2, idx3, some e)

/-- Source method `Dht11::step`, as a function of the stored driver, the poll trace with the
current index, and the clock reading for this step.  Returns the mutated
driver, the next trace index, and the error if any (mutations persist on
error exactly as through `&mut self`; in the `Read` arm the state is set to
`Cooldown` before the decode, and the decode's frame mutations survive an
error). -/
def step (d : Dht11) (pin : Nat → Bool) (pidx now : Nat) :
    Dht11 × Nat × Option Dht11Error :=
  match d.state with
  | .Idle => ({ d with state := .Init }, pidx, none)
  | .Init =>
    ({ d with
        data := List.replicate 5 0
        dht_timestamp := now
        state := .BeginMeasurement }, pidx, none)
  | .BeginMeasurement =>
    ({ d with dht_timestamp := now, state := .Read }, pidx, none)
  | .Read =>
    match read_data pin d.max_cycles d.data pidx with
    | (data2, pidx2, none) =>
      ({ d with dht_timestamp := now, state := .Cooldown, data := data2 }, pidx2, none)
    | (data2, _, some e) =>
      ({ d with dht_timestamp := now, state := .Cooldown, data := data2 }, pidx, some e)
  | .Cooldown =>
    if now - d.dht_timestamp > COOLDOWN_TIME_MS then
      ({ d with state := .Idle }, pidx, none)
    else (d, pidx, none)

/-- The `loop` of `Dht11::measure`, with explicit fuel.  `k` counts the `step`
invocations (indexing the clock), `pidx` the consumed poll samples.  On a step
error the state is reset to `Idle` and the error returned; on reaching
`Cooldown` the measurement is recomputed from the raw frame and returned.
The source loop is unbounded; fuel 6 is enough from every state (the state
cycle has length 5), so `measure` below never actually runs out. -/
def measureAux (pin : Nat → Bool) (clock : Nat → Nat) :
    Nat → Nat → Nat → Dht11 → Option (Dht11 × Except Dht11Error Dht11Measurement)
  | 0, _, _, _ => none
  | fuel + 1, k, pidx, d =>
    match step d pin pidx (clock k) with
    | (d2, _, some e) => some ({ d2 with state := .Idle }, .error e)
    | (d2, pidx2, none) =>
      if d2.state = .Cooldown then
        some (d2, .ok { humidity := read_humidity d2.data,
                        temperature := read_temperature d2.data })
      else measureAux pin clock fuel (k + 1) pidx2 d2

/-- Source method `Dht11::measure`, starting from clock index 0 and poll index 0. -/
def measure (d : Dht11) (pin : Nat → Bool) (clock : Nat → Nat) :
    Option (Dht11 × Except Dht11Error Dht11Measurement) :=
  measureAux pin clock 6 0 0 d

/-! ### Spec-side packing functions (from the spec's words, for refinement) -/

/-- Modelled from the spec: a byte assembled from its bits
most-significant-bit-first. -/
def byteFromBits (bits : List Bool) : Nat :=
  bits.foldl (fun acc b => acc * 2 + if b then 1 else 0) 0

/-- Modelled from the spec: 40 bits packed most-significant-bit-first into the
5 frame bytes (humidity-integral, humidity-decimal, temperature-integral,
temperature-decimal, checksum). -/
def packBytesMSB (bits : List Bool) : List Nat :=
  [byteFromBits ((bits.drop 0).take 8), byteFromBits ((bits.drop 8).take 8),
   byteFromBits ((bits.drop 16).take 8), byteFromBits ((bits.drop 24).take 8),
   byteFromBits ((bits.drop 32).take 8)]

/-- The bit-packing loop of `read_data` restricted to the already-compared
bits (the zero checks stripped); `decode_bits_from` reduces to it on pair
lists without zero counts. -/
def decodeBitsB : Nat → List Bool → List Nat → List Nat
  | _, [], data => data
  | i, b :: rest, data => decodeBitsB (i + 1) rest (push_bit data (i / 8) b)

/-! ### Concrete poll traces used as witnesses -/

/-- Trace block encoding one data bit: low marker then the timed high pulse
(low-hold 2, high-hold 1 polls for a 0; low-hold 1, high-hold 2 polls for
a 1). -/
def bitBlock (b : Bool) : List Bool :=
  if b then [false, true, true, true, false] else [false, false, true, true, false]

/-- The 40 bits of the frame `[0x32, 0x00, 0x18, 0x00, 0x4A]`,
most-significant-bit-first. -/
def frameBits : List Bool :=
  [false, false, true, true, false, false, true, false,
   false, false, false, false, false, false, false, false,
   false, false, false, true, true, false, false, false,
   false, false, false, false, false, false, false, false,
   false, true, false, false, true, false, true, false]

/-- A complete well-formed poll trace: reply header (one low poll, one high
poll) followed by the 40 encoded bits of the C8 frame. -/
def traceC8 : List Bool :=
  [false, true, true, false] ++ frameBits.foldr (fun b acc => bitBlock b ++ acc) []

/-- The C8 trace as a pin, low after the transmission ends. -/
def pinC8 (n : Nat) : Bool := traceC8.getD n false

/-- A trace whose reply header is fine, whose first data pair has a
zero-length low hold, and which then sticks low forever: polls read
low, high, high, low, high, high, low, low, low, ... -/
def pinD (n : Nat) : Bool := decide (n = 1 ∨ n = 2 ∨ n = 4 ∨ n = 5)

/-! ### Helper lemmas -/

theorem getD_set_self : ∀ (l : List Nat) (j w : Nat), j < l.length →
    (l.set j w).getD j 0 = w := by
  intro l
  induction l with
  | nil => intro j w h; simp at h
  | cons a t ih =>
    intro j w h
    cases j with
    | zero => rfl
    | succ j =>
      exact ih j w (by simp only [List.length_cons] at h; omega)

theorem push_bit_getD (data : List Nat) (j v : Nat) (b : Bool)
    (hv : data.getD j 0 = v) :
    push_bit data j b = data.set j ((v * 2) % 256 + if b then 1 else 0) := by
  rw [push_bit, hv]

theorem push_bit_set (data : List Nat) (j w : Nat) (b : Bool) (hj : j < data.length) :
    push_bit (data.set j w) j b = data.set j ((w * 2) % 256 + if b then 1 else 0) := by
  rw [push_bit, getD_set_self data j w hj, List.set_set]

/-- Every error produced by the pulse-count loop is a `Timeout`. -/
theorem pulse_count_aux_error (level : Bool) (pin : Nat → Bool) :
    ∀ r idx e, pulse_count_aux level pin r idx = .error e → e = .Timeout := by
  intro r
  induction r with
  | zero =>
    intro idx e h
    simp only [pulse_count_aux] at h
    split at h
    · injection h with h; exact h.symm
    · exact absurd h (by simp)
  | succ r ih =>
    intro idx e h
    simp only [pulse_count_aux] at h
    split at h
    · split at h
      · injection h with h; exact h.symm
      · split at h
        · exact absurd h (by simp)
        · injection h with h
          subst h
          exact ih _ _ (by assumption)
    · exact absurd h (by simp)

/-- Unfolding step of the timeout characterization, for budgets above 1. -/
theorem pulse_count_aux_timeout_succ (level : Bool) (pin : Nat → Bool)
    (r idx : Nat) (hr : 1 ≤ r) :
    pulse_count_aux level pin (r + 1) idx = .error .Timeout ↔
      pin idx = level ∧ pulse_count_aux level pin r (idx + 1) = .error .Timeout := by
  have hr0 : ¬ r = 0 := by omega
  by_cases hp : pin idx = level
  · rcases hrec : pulse_count_aux level pin r (idx + 1) with e | ⟨c, idx2⟩
    · have he : e = .Timeout := pulse_count_aux_error level pin r (idx + 1) e hrec
      subst he
      simp [pulse_count_aux, hp, hr0, hrec]
    · simp [pulse_count_aux, hp, hr0, hrec]
  · simp [pulse_count_aux, hp]

/-- The pulse-count loop times out exactly when the first `max_cycles` polls
all read the expected level (for a positive budget). -/
theorem pulse_count_aux_timeout_iff (level : Bool) (pin : Nat → Bool) :
    ∀ r idx, 1 ≤ r →
      (pulse_count_aux level pin r idx = .error .Timeout ↔
        ∀ k < r, pin (idx + k) = level) := by
  intro r
  induction r with
  | zero => intro idx h; omega
  | succ r ih =>
    intro idx _
    rcases Nat.eq_zero_or_pos r with rfl | hr
    · constructor
      · intro h k hk
        have hk0 : k = 0 := by omega
        subst hk0
        by_contra hne
        simp only [Nat.add_zero] at hne
        simp [pulse_count_aux, hne] at h
      · intro h
        have hp : pin idx = level := by simpa using h 0 (by omega)
        simp [pulse_count_aux, hp]
    · rw [pulse_count_aux_timeout_succ level pin r idx hr, ih (idx + 1) hr]
      constructor
      · rintro ⟨hp, htail⟩ k hk
        cases k with
        | zero => simpa using hp
        | succ k =>
          have := htail k (by omega)
          simpa [Nat.add_comm, Nat.add_assoc, Nat.add_left_comm] using this
      · intro h
        refine ⟨by simpa using h 0 (by omega), fun k hk => ?_⟩
        have := h (k + 1) (by omega)
        simpa [Nat.add_comm, Nat.add_assoc, Nat.add_left_comm] using this

/-- A trace stuck at `level` from `idx` on forces a timeout, for any budget. -/
theorem pulse_count_aux_stuck (level : Bool) (pin : Nat → Bool) :
    ∀ r idx, (∀ k, idx ≤ k → pin k = level) →
      pulse_count_aux level pin r idx = .error .Timeout := by
  intro r
  induction r with
  | zero =>
    intro idx h
    simp [pulse_count_aux, h idx le_rfl]
  | succ r ih =>
    intro idx h
    rcases Nat.eq_zero_or_pos r with rfl | hr
    · simp [pulse_count_aux, h idx le_rfl]
    · rw [pulse_count_aux_timeout_succ level pin r idx hr]
      exact ⟨h idx le_rfl, ih (idx + 1) fun k hk => h k (by omega)⟩

/-- Processing one byte's worth of bits: eight pushes into byte `j` starting
from a zero byte assemble `byteFromBits` of those eight bits. -/
theorem decodeBitsB_byte (i j : Nat) (c0 c1 c2 c3 c4 c5 c6 c7 : Bool)
    (rest : List Bool) (data : List Nat)
    (hj : j < data.length) (hv : data.getD j 0 = 0)
    (h0 : i / 8 = j) (h1 : (i + 1) / 8 = j) (h2 : (i + 1 + 1) / 8 = j)
    (h3 : (i + 1 + 1 + 1) / 8 = j) (h4 : (i + 1 + 1 + 1 + 1) / 8 = j)
    (h5 : (i + 1 + 1 + 1 + 1 + 1) / 8 = j)
    (h6 : (i + 1 + 1 + 1 + 1 + 1 + 1) / 8 = j)
    (h7 : (i + 1 + 1 + 1 + 1 + 1 + 1 + 1) / 8 = j) :
    decodeBitsB i (c0 :: c1 :: c2 :: c3 :: c4 :: c5 :: c6 :: c7 :: rest) data =
      decodeBitsB (i + 1 + 1 + 1 + 1 + 1 + 1 + 1 + 1) rest
        (data.set j (byteFromBits [c0, c1, c2, c3, c4, c5, c6, c7])) := by
  simp only [decodeBitsB, h0, h1, h2, h3, h4, h5, h6, h7]
  rw [push_bit_getD data j 0 c0 hv]
  rw [push_bit_set data j _ c1 hj, push_bit_set data j _ c2 hj,
    push_bit_set data j _ c3 hj, push_bit_set data j _ c4 hj,
    push_bit_set data j _ c5 hj, push_bit_set data j _ c6 hj,
    push_bit_set data j _ c7 hj]
  refine congrArg (decodeBitsB (i + 1 + 1 + 1 + 1 + 1 + 1 + 1 + 1) rest) ?_
  refine congrArg (data.set j) ?_
  cases c0 <;> cases c1 <;> cases c2 <;> cases c3 <;> cases c4 <;> cases c5 <;>
    cases c6 <;> cases c7 <;> rfl

/-- Forty bits starting from a cleared frame pack most-significant-bit-first
into the five frame bytes. -/
theorem decodeBitsB_spec :
    ∀ bits : List Bool, bits.length = 40 →
      decodeBitsB 0 bits (List.replicate 5 0) = packBytesMSB bits := by
  intro bits h
  obtain _ | ⟨b0, bits⟩ := bits
  · exact absurd h (by simp)
  obtain _ | ⟨b1, bits⟩ := bits
  · exact absurd h (by simp)
  obtain _ | ⟨b2, bits⟩ := bits
  · exact absurd h (by simp)
  obtain _ | ⟨b3, bits⟩ := bits
  · exact absurd h (by simp)
  obtain _ | ⟨b4, bits⟩ := bits
  · exact absurd h (by simp)
  obtain _ | ⟨b5, bits⟩ := bits
  · exact absurd h (by simp)
  obtain _ | ⟨b6, bits⟩ := bits
  · exact absurd h (by simp)
  obtain _ | ⟨b7, bits⟩ := bits
  · exact absurd h (by simp)
  obtain _ | ⟨b8, bits⟩ := bits
  · exact absurd h (by simp)
  obtain _ | ⟨b9, bits⟩ := bits
  · exact absurd h (by simp)
  obtain _ | ⟨b10, bits⟩ := bits
  · exact absurd h (by simp)
  obtain _ | ⟨b11, bits⟩ := bits
  · exact absurd h (by simp)
  obtain _ | ⟨b12, bits⟩ := bits
  · exact absurd h (by simp)
  obtain _ | ⟨b13, bits⟩ := bits
  · exact absurd h (by simp)
  obtain _ | ⟨b14, bits⟩ := bits
  · exact absurd h (by simp)
  obtain _ | ⟨b15, bits⟩ := bits
  · exact absurd h (by simp)
  obtain _ | ⟨b16, bits⟩ := bits
  · exact absurd h (by simp)
  obtain _ | ⟨b17, bits⟩ := bits
  · exact absurd h (by simp)
  obtain _ | ⟨b18, bits⟩ := bits
  · exact absurd h (by simp)
  obtain _ | ⟨b19, bits⟩ := bits
  · exact absurd h (by simp)
  obtain _ | ⟨b20, bits⟩ := bits
  · exact absurd h (by simp)
  obtain _ | ⟨b21, bits⟩ := bits
  · exact absurd h (by simp)
  obtain _ | ⟨b22, bits⟩ := bits
  · exact absurd h (by simp)
  obtain _ | ⟨b23, bits⟩ := bits
  · exact absurd h (by simp)
  obtain _ | ⟨b24, bits⟩ := bits
  · exact absurd h (by simp)
  obtain _ | ⟨b25, bits⟩ := bits
  · exact absurd h (by simp)
  obtain _ | ⟨b26, bits⟩ := bits
  · exact absurd h (by simp)
  obtain _ | ⟨b27, bits⟩ := bits
  · exact absurd h (by simp)
  obtain _ | ⟨b28, bits⟩ := bits
  · exact absurd h (by simp)
  obtain _ | ⟨b29, bits⟩ := bits
  · exact absurd h (by simp)
  obtain _ | ⟨b30, bits⟩ := bits
  · exact absurd h (by simp)
  obtain _ | ⟨b31, bits⟩ := bits
  · exact absurd h (by simp)
  obtain _ | ⟨b32, bits⟩ := bits
  · exact absurd h (by simp)
  obtain _ | ⟨b33, bits⟩ := bits
  · exact absurd h (by simp)
  obtain _ | ⟨b34, bits⟩ := bits
  · exact absurd h (by simp)
  obtain _ | ⟨b35, bits⟩ := bits
  · exact absurd h (by simp)
  obtain _ | ⟨b36, bits⟩ := bits
  · exact absurd h (by simp)
  obtain _ | ⟨b37, bits⟩ := bits
  · exact absurd h (by simp)
  obtain _ | ⟨b38, bits⟩ := bits
  · exact absurd h (by simp)
  obtain _ | ⟨b39, bits⟩ := bits
  · exact absurd h (by simp)
  obtain _ | ⟨b40, bits⟩ := bits
  case cons =>
    simp only [List.length_cons] at h
    omega
  rw [decodeBitsB_byte 0 0 b0 b1 b2 b3 b4 b5 b6 b7 _
    (List.replicate 5 0)
    (by simp) (by rfl) (by decide) (by decide) (by decide) (by decide) (by decide) (by decide) (by decide) (by decide)]
  rw [show (0 + 1 + 1 + 1 + 1 + 1 + 1 + 1 + 1 : Nat) = 8 from rfl]
  rw [decodeBitsB_byte 8 1 b8 b9 b10 b11 b12 b13 b14 b15 _
    ((List.replicate 5 0).set 0 (byteFromBits [b0, b1, b2, b3, b4, b5, b6, b7]))
    (by simp) (by rfl) (by decide) (by decide) (by decide) (by decide) (by decide) (by decide) (by decide) (by decide)]
  rw [show (8 + 1 + 1 + 1 + 1 + 1 + 1 + 1 + 1 : Nat) = 16 from rfl]
  rw [decodeBitsB_byte 16 2 b16 b17 b18 b19 b20 b21 b22 b23 _
    (((List.replicate 5 0).set 0 (byteFromBits [b0, b1, b2, b3, b4, b5, b6, b7])).set 1 (byteFromBits [b8, b9, b10, b11, b12, b13, b14, b15]))
    (by simp) (by rfl) (by decide) (by decide) (by decide) (by decide) (by decide) (by decide) (by decide) (by decide)]
  rw [show (16 + 1 + 1 + 1 + 1 + 1 + 1 + 1 + 1 : Nat) = 24 from rfl]
  rw [decodeBitsB_byte 24 3 b24 b25 b26 b27 b28 b29 b30 b31 _
    ((((List.replicate 5 0).set 0 (byteFromBits [b0, b1, b2, b3, b4, b5, b6, b7])).set 1 (byteFromBits [b8, b9, b10, b11, b12, b13, b14, b15])).set 2 (byteFromBits [b16, b17, b18, b19, b20, b21, b22, b23]))
    (by simp) (by rfl) (by decide) (by decide) (by decide) (by decide) (by decide) (by decide) (by decide) (by decide)]
  rw [show (24 + 1 + 1 + 1 + 1 + 1 + 1 + 1 + 1 : Nat) = 32 from rfl]
  rw [decodeBitsB_byte 32 4 b32 b33 b34 b35 b36 b37 b38 b39 _
    (((((List.replicate 5 0).set 0 (byteFromBits [b0, b1, b2, b3, b4, b5, b6, b7])).set 1 (byteFromBits [b8, b9, b10, b11, b12, b13, b14, b15])).set 2 (byteFromBits [b16, b17, b18, b19, b20, b21, b22, b23])).set 3 (byteFromBits [b24, b25, b26, b27, b28, b29, b30, b31]))
    (by simp) (by rfl) (by decide) (by decide) (by decide) (by decide) (by decide) (by decide) (by decide) (by decide)]
  rfl

/-! ### Claim theorems -/

/-- On pair lists free of zero counts the decode loop never fails and reduces
to the pure bit-packing loop over the comparisons `low < high`. -/
theorem decode_bits_from_nonzero :
    ∀ (pairs : List (Nat × Nat)) (i : Nat) (data : List Nat),
      (∀ p ∈ pairs, p.1 ≠ 0 ∧ p.2 ≠ 0) →
      decode_bits_from i pairs data =
        (decodeBitsB i (pairs.map fun p => decide (p.1 < p.2)) data, none) := by
  intro pairs
  induction pairs with
  | nil => intro i data h; rfl
  | cons p rest ih =>
    intro i data h
    obtain ⟨lo, hi⟩ := p
    obtain ⟨h1, h2⟩ := h (lo, hi) (List.mem_cons_self _ _)
    have hz : ¬ (lo = 0 ∨ hi = 0) := by
      rintro (rfl | rfl) <;> simp_all
    simp only [decode_bits_from, if_neg hz, List.map_cons, decodeBitsB]
    exact ih _ _ fun q hq => h q (List.mem_cons_of_mem _ hq)

/-- C1: on 40 pairs of nonzero cycle counts the decode loop succeeds, bit `i`
is 1 exactly when the high-hold count strictly exceeds the paired low-hold
count, and the 40 bits are packed most-significant-bit-first into the 5 frame
bytes; the result depends on the pairs only through those comparisons. -/
theorem decode_reconstructs_bits (pairs : List (Nat × Nat))
    (hlen : pairs.length = 40) (hnz : ∀ p ∈ pairs, p.1 ≠ 0 ∧ p.2 ≠ 0) :
    decode_bits_from 0 pairs (List.replicate 5 0) =
      (packBytesMSB (pairs.map fun p => decide (p.1 < p.2)), none) := by
  rw [decode_bits_from_nonzero pairs 0 (List.replicate 5 0) hnz,
    decodeBitsB_spec (pairs.map fun p => decide (p.1 < p.2)) (by simp [hlen])]

theorem decode_reconstructs_bits_witness :
    decode_bits_from 0 (List.replicate 40 (1, 2)) (List.replicate 5 0) =
      (packBytesMSB ((List.replicate 40 (1, 2)).map fun p => decide (p.1 < p.2)),
        none) :=
  decode_reconstructs_bits (List.replicate 40 (1, 2)) (by simp) (by decide)

/-- C2: for every 4-byte prefix, checksum validation succeeds exactly when the
fifth byte equals `(b0+b1+b2+b3) mod 256`, and fails with `Checksum` for every
other fifth byte. -/
theorem checksum_mod256 (b0 b1 b2 b3 b4 : Nat)
    (h0 : b0 < 256) (h1 : b1 < 256) (h2 : b2 < 256) (h3 : b3 < 256) (h4 : b4 < 256) :
    (b4 = (b0 + b1 + b2 + b3) % 256 → checksum [b0, b1, b2, b3, b4] = .ok ()) ∧
    (b4 ≠ (b0 + b1 + b2 + b3) % 256 →
      checksum [b0, b1, b2, b3, b4] = .error .Checksum) := by
  constructor <;> intro h <;>
    simp [checksum, List.getD_cons_succ, List.getD_cons_zero, h]

theorem checksum_mod256_witness :
    checksum [1, 2, 3, 4, 10] = .ok () ∧
    checksum [1, 2, 3, 4, 11] = .error .Checksum :=
  ⟨(checksum_mod256 1 2 3 4 10 (by decide) (by decide) (by decide) (by decide)
      (by decide)).1 (by decide),
   (checksum_mod256 1 2 3 4 11 (by decide) (by decide) (by decide) (by decide)
      (by decide)).2 (by decide)⟩

/-- The decode loop fails with `Data` as soon as some pair holds a zero
count, whatever the position. -/
theorem decode_bits_from_zero_pair :
    ∀ (pairs : List (Nat × Nat)) (i : Nat) (data : List Nat),
      (∃ p ∈ pairs, p.1 = 0 ∨ p.2 = 0) →
      (decode_bits_from i pairs data).2 = some .Data := by
  intro pairs
  induction pairs with
  | nil =>
    intro i data h
    simp at h
  | cons p rest ih =>
    intro i data h
    obtain ⟨lo, hi⟩ := p
    by_cases hz : lo = 0 ∨ hi = 0
    · simp [decode_bits_from, hz]
    · rcases h with ⟨q, hq, hq0⟩
      rcases List.mem_cons.mp hq with rfl | hq
      · exact absurd hq0 hz
      · simp only [decode_bits_from, if_neg hz]
        exact ih _ _ ⟨q, hq, hq0⟩

/-- C6: if any of the 40 data-bit pairs has a zero low-hold or high-hold
count, the decode loop fails with `Data`, regardless of position. -/
theorem zero_pair_data_error (pairs : List (Nat × Nat)) (data : List Nat)
    (hlen : pairs.length = 40) (hz : ∃ p ∈ pairs, p.1 = 0 ∨ p.2 = 0) :
    (decode_bits_from 0 pairs data).2 = some .Data :=
  decode_bits_from_zero_pair pairs 0 data hz

theorem zero_pair_data_error_witness :
    (decode_bits_from 0 ((0, 1) :: List.replicate 39 (1, 2))
      (List.replicate 5 0)).2 = some .Data :=
  zero_pair_data_error _ _ (by simp) ⟨(0, 1), by simp, Or.inl rfl⟩

/-- C4: the driver is constructed with a cycle budget of 10000, and for that
budget the polling loop returns `Timeout` exactly when the line reads the
expected level for the whole budget; in particular a line stuck at the
expected level yields `Timeout` instead of looping forever. -/
theorem pulse_count_timeout_budget (level : Bool) (pin : Nat → Bool) (idx : Nat) :
    Dht11.new.max_cycles = 10000 ∧
    (pulse_count level pin Dht11.new.max_cycles idx = .error .Timeout ↔
      ∀ k < 10000, pin (idx + k) = level) := by
  refine ⟨rfl, ?_⟩
  exact pulse_count_aux_timeout_iff level pin 10000 idx (by omega)

theorem pulse_count_timeout_budget_witness :
    pulse_count true (fun _ => true) Dht11.new.max_cycles 0 = .error .Timeout :=
  (pulse_count_timeout_budget true (fun _ => true) 0).2.mpr fun _ _ => rfl


/-- Every error produced by the pair-measuring loop is a `Timeout`. -/
theorem measure_pairs_error (pin : Nat → Bool) (mx : Nat) :
    ∀ n idx e, measure_pairs pin mx n idx = .error e → e = .Timeout := by
  intro n
  induction n with
  | zero =>
    intro idx e h
    simp [measure_pairs] at h
  | succ n ih =>
    intro idx e h
    rcases h1 : pulse_count false pin mx idx with e1 | ⟨lo, idx1⟩
    · simp only [measure_pairs, h1, Except.error.injEq] at h
      subst h
      exact pulse_count_aux_error false pin mx idx e1 h1
    · rcases h2 : pulse_count true pin mx idx1 with e2 | ⟨hi, idx2⟩
      · simp only [measure_pairs, h1, h2, Except.error.injEq] at h
        subst h
        exact pulse_count_aux_error true pin mx idx1 e2 h2
      · rcases h3 : measure_pairs pin mx n idx2 with e3 | ⟨rest, idxf⟩
        · simp only [measure_pairs, h1, h2, h3, Except.error.injEq] at h
          subst h
          exact ih idx2 e3 h3
        · simp [measure_pairs, h1, h2, h3] at h

/-- A timeout in the leading low pulse of a pair run propagates. -/
theorem measure_pairs_timeout_first (pin : Nat → Bool) (mx n idx : Nat)
    (h : pulse_count false pin mx idx = .error .Timeout) :
    measure_pairs pin mx (n + 1) idx = .error .Timeout := by
  simp [measure_pairs, h]

/-- One successfully measured pair unfolds the pair run by one step. -/
theorem measure_pairs_cons (pin : Nat → Bool) (mx n idx lo i1 hi i2 : Nat)
    (h1 : pulse_count false pin mx idx = .ok (lo, i1))
    (h2 : pulse_count true pin mx i1 = .ok (hi, i2)) :
    measure_pairs pin mx (n + 1) idx =
      match measure_pairs pin mx n i2 with
      | .error e => .error e
      | .ok (rest, idxf) => .ok ((lo, hi) :: rest, idxf) := by
  simp [measure_pairs, h1, h2]

/-- A decode-loop error is always `Data`, and comes with a zero pair. -/
theorem decode_bits_from_error :
    ∀ (pairs : List (Nat × Nat)) (i : Nat) (data data2 : List Nat) (e : Dht11Error),
      decode_bits_from i pairs data = (data2, some e) →
      e = .Data ∧ ∃ p ∈ pairs, p.1 = 0 ∨ p.2 = 0 := by
  intro pairs
  induction pairs with
  | nil =>
    intro i data data2 e h
    simp [decode_bits_from] at h
  | cons p rest ih =>
    intro i data data2 e h
    obtain ⟨lo, hi⟩ := p
    by_cases hz : lo = 0 ∨ hi = 0
    · simp only [decode_bits_from, if_pos hz, Prod.mk.injEq, Option.some.injEq] at h
      exact ⟨h.2.symm, ⟨(lo, hi), List.mem_cons_self _ _, hz⟩⟩
    · simp only [decode_bits_from, if_neg hz] at h
      obtain ⟨he, q, hq, hq0⟩ := ih _ _ _ _ h
      exact ⟨he, q, List.mem_cons_of_mem _ hq, hq0⟩

/-- A checksum error is always `Checksum`. -/
theorem checksum_error (data : List Nat) (e : Dht11Error)
    (h : checksum data = .error e) : e = .Checksum := by
  simp only [checksum] at h
  split at h
  · exact absurd h (by simp)
  · injection h with h
    exact h.symm

/-- Single-step transition discipline of the state machine: each state is
entered only from its predecessor on the cycle (`Cooldown` also loops). -/
theorem step_state_pred (e : Dht11) (pin2 : Nat → Bool) (pidx now : Nat) :
    ((step e pin2 pidx now).1.state = .Init → e.state = .Idle) ∧
    ((step e pin2 pidx now).1.state = .BeginMeasurement → e.state = .Init) ∧
    ((step e pin2 pidx now).1.state = .Read → e.state = .BeginMeasurement) ∧
    ((step e pin2 pidx now).1.state = .Cooldown →
      e.state = .Read ∨ e.state = .Cooldown) ∧
    ((step e pin2 pidx now).1.state = .Idle → e.state = .Cooldown) := by
  obtain ⟨ed, es, em, et⟩ := e
  cases es
  · simp [step]
  · simp [step]
  · simp [step]
  · rcases hr : read_data pin2 em ed pidx with ⟨data2, px2, err⟩
    cases err <;> simp [step, hr]
  · by_cases hcool : now - et > COOLDOWN_TIME_MS <;> simp [step, hcool]

/-- C3: the driver states form the strict cycle
`Idle → Init → BeginMeasurement → Read → Cooldown → Idle` (with `Cooldown`
also allowed to wait in place); `Read` is entered only from
`BeginMeasurement`; and a `measure` call from `Idle` whose decode succeeds
steps through `Init`, `BeginMeasurement`, `Read` and `Cooldown` exactly once
each and then returns the measurement. -/
theorem state_machine_cycle (d : Dht11) (pin : Nat → Bool) (clock : Nat → Nat)
    (bytes : List Nat) (pidx2 : Nat)
    (hidle : d.state = .Idle)
    (hread : read_data pin d.max_cycles (List.replicate 5 0) 0 =
      (bytes, pidx2, none)) :
    (∀ (e : Dht11) (pin2 : Nat → Bool) (pidx now : Nat),
        ((step e pin2 pidx now).1.state = .Init → e.state = .Idle) ∧
        ((step e pin2 pidx now).1.state = .BeginMeasurement → e.state = .Init) ∧
        ((step e pin2 pidx now).1.state = .Read → e.state = .BeginMeasurement) ∧
        ((step e pin2 pidx now).1.state = .Cooldown →
          e.state = .Read ∨ e.state = .Cooldown) ∧
        ((step e pin2 pidx now).1.state = .Idle → e.state = .Cooldown)) ∧
    step d pin 0 (clock 0) = ({ d with state := .Init }, 0, none) ∧
    step { d with state := .Init } pin 0 (clock 1) =
      ({ d with
          data := List.replicate 5 0
          dht_timestamp := clock 1
          state := .BeginMeasurement }, 0, none) ∧
    step { d with
        data := List.replicate 5 0
        dht_timestamp := clock 1
        state := .BeginMeasurement } pin 0 (clock 2) =
      ({ d with
          data := List.replicate 5 0
          dht_timestamp := clock 2
          state := .Read }, 0, none) ∧
    step { d with
        data := List.replicate 5 0
        dht_timestamp := clock 2
        state := .Read } pin 0 (clock 3) =
      ({ d with data := bytes, dht_timestamp := clock 3, state := .Cooldown },
        pidx2, none) ∧
    measure d pin clock =
      some ({ d with data := bytes, dht_timestamp := clock 3, state := .Cooldown },
        .ok { humidity := read_humidity bytes,
              temperature := read_temperature bytes }) := by
  have hread2 : read_data pin d.max_cycles [0, 0, 0, 0, 0] 0 =
      (bytes, pidx2, none) := hread
  refine ⟨fun e pin2 pidx now => step_state_pred e pin2 pidx now,
    ?_, rfl, rfl, ?_, ?_⟩
  · simp [step, hidle]
  · simp [step, hread2]
  · simp [measure, measureAux, step, hidle, hread2]

theorem state_machine_cycle_witness :
    step { Dht11.new with
        data := List.replicate 5 0
        dht_timestamp := 2
        state := .Read } pinC8 0 3 =
      ({ Dht11.new with
          data := [50, 0, 24, 0, 74]
          dht_timestamp := 3
          state := .Cooldown }, 204, none) ∧
    measure Dht11.new pinC8 (fun k => k) =
      some ({ Dht11.new with
          data := [50, 0, 24, 0, 74]
          dht_timestamp := 3
          state := .Cooldown },
        .ok { humidity := read_humidity [50, 0, 24, 0, 74],
              temperature := read_temperature [50, 0, 24, 0, 74] }) := by
  have h := state_machine_cycle Dht11.new pinC8 (fun k => k) [50, 0, 24, 0, 74] 204
    rfl (by rfl)
  exact ⟨h.2.2.2.2.1, h.2.2.2.2.2⟩

/-- C5: whenever a step of `measure` fails, the driver state is reset to
`Idle` and the failing step's error is returned, both for the fuelled loop
and for `measure` itself. -/
theorem measure_error_resets_idle (pin : Nat → Bool) (clock : Nat → Nat) :
    (∀ (fuel k pidx : Nat) (d d2 : Dht11) (e : Dht11Error),
      measureAux pin clock fuel k pidx d = some (d2, .error e) →
      d2.state = .Idle) ∧
    (∀ (d d2 : Dht11) (e : Dht11Error),
      measure d pin clock = some (d2, .error e) → d2.state = .Idle) := by
  have main : ∀ (fuel k pidx : Nat) (d d2 : Dht11) (e : Dht11Error),
      measureAux pin clock fuel k pidx d = some (d2, .error e) →
      d2.state = .Idle := by
    intro fuel
    induction fuel with
    | zero =>
      intro k pidx d d2 e h
      simp [measureAux] at h
    | succ fuel ih =>
      intro k pidx d d2 e h
      simp only [measureAux] at h
      split at h
      · simp only [Option.some.injEq, Prod.mk.injEq] at h
        rw [← h.1]
      · split at h
        · simp at h
        · exact ih _ _ _ _ _ h
  exact ⟨main, fun d d2 e h => main 6 0 0 d d2 e h⟩

theorem measure_error_resets_idle_witness :
    measure Dht11.new (fun _ => true) (fun k => k) =
      some (⟨List.replicate 5 0, .Idle, 10000, 3⟩, .error .ReplyHeaderMissing) ∧
    (⟨List.replicate 5 0, .Idle, 10000, 3⟩ : Dht11).state = .Idle :=
  ⟨rfl, (measure_error_resets_idle (fun _ => true) (fun k => k)).2
    Dht11.new ⟨List.replicate 5 0, .Idle, 10000, 3⟩ .ReplyHeaderMissing rfl⟩

/-- C7: a zero-length low or high reply pulse fails the handshake with
`ReplyHeaderMissing`, while an exhausted polling budget in either reply pulse
fails with `Timeout`. -/
theorem reply_header_classification (pin : Nat → Bool) (mx : Nat)
    (data : List Nat) (idx : Nat) :
    (∀ i1, pulse_count false pin mx idx = .ok (0, i1) →
      read_data pin mx data idx = (data, i1, some .ReplyHeaderMissing)) ∧
    (∀ c1 i1 i2, pulse_count false pin mx idx = .ok (c1, i1) → c1 ≠ 0 →
      pulse_count true pin mx i1 = .ok (0, i2) →
      read_data pin mx data idx = (data, i2, some .ReplyHeaderMissing)) ∧
    (pulse_count false pin mx idx = .error .Timeout →
      read_data pin mx data idx = (data, idx, some .Timeout)) ∧
    (∀ c1 i1, pulse_count false pin mx idx = .ok (c1, i1) → c1 ≠ 0 →
      pulse_count true pin mx i1 = .error .Timeout →
      read_data pin mx data idx = (data, i1, some .Timeout)) := by
  refine ⟨?_, ?_, ?_, ?_⟩
  · intro i1 h
    simp [read_data, h]
  · intro c1 i1 i2 h1 hc1 h2
    simp [read_data, h1, hc1, h2]
  · intro h
    simp [read_data, h]
  · intro c1 i1 h1 hc1 h2
    simp [read_data, h1, hc1, h2]

theorem reply_header_classification_witness :
    read_data (fun _ => true) 10000 (List.replicate 5 0) 0 =
      (List.replicate 5 0, 1, some .ReplyHeaderMissing) ∧
    read_data (fun n => decide (n = 1)) 10000 (List.replicate 5 0) 0 =
      (List.replicate 5 0, 3, some .ReplyHeaderMissing) ∧
    read_data (fun _ => false) 10000 (List.replicate 5 0) 0 =
      (List.replicate 5 0, 0, some .Timeout) :=
  ⟨(reply_header_classification (fun _ => true) 10000 (List.replicate 5 0) 0).1
      1 rfl,
   (reply_header_classification (fun n => decide (n = 1)) 10000
      (List.replicate 5 0) 0).2.1 1 2 3 rfl (by decide) rfl,
   (reply_header_classification (fun _ => false) 10000 (List.replicate 5 0) 0).2.2.1
      (pulse_count_aux_stuck false (fun _ => false) 10000 0 fun _ _ => rfl)⟩

/-- C9: calling `measure` while already in `Cooldown` with less than the
2000 ms cooldown elapsed returns `Ok` immediately, recomputing the
measurement from the stored raw frame, with the driver completely unchanged
and, since the result holds for every pin trace, without any sensor read. -/
theorem cooldown_returns_cached (d : Dht11) (pin : Nat → Bool) (clock : Nat → Nat)
    (hc : d.state = .Cooldown) (ht : clock 0 - d.dht_timestamp < 2000) :
    measure d pin clock =
      some (d, .ok { humidity := read_humidity d.data,
                     temperature := read_temperature d.data }) := by
  have ht2 : ¬ clock 0 - d.dht_timestamp > COOLDOWN_TIME_MS := by
    simp only [COOLDOWN_TIME_MS]
    omega
  simp [measure, measureAux, step, hc, ht2]

theorem cooldown_returns_cached_witness :
    measure ⟨[50, 0, 24, 0, 74], .Cooldown, 10000, 1000⟩ (fun _ => true)
      (fun _ => 1500) =
      some (⟨[50, 0, 24, 0, 74], .Cooldown, 10000, 1000⟩, .ok ⟨50, 24⟩) :=
  cooldown_returns_cached ⟨[50, 0, 24, 0, 74], .Cooldown, 10000, 1000⟩
    (fun _ => true) (fun _ => 1500) rfl (by decide)

/-- C10: all 80 pulse counts are measured before any zero check, so a
`Timeout` while measuring wins over `Data` even when an earlier pair already
contains a zero count, and `Data` is only returned when the whole pair run
measured within budget and a zero pair exists. -/
theorem timeout_precedence_over_data (pin : Nat → Bool) (mx : Nat)
    (data : List Nat) (idx : Nat) :
    (∀ c1 i1 c2 i2, pulse_count false pin mx idx = .ok (c1, i1) → c1 ≠ 0 →
      pulse_count true pin mx i1 = .ok (c2, i2) → c2 ≠ 0 →
      measure_pairs pin mx 40 i2 = .error .Timeout →
      read_data pin mx data idx = (data, i2, some .Timeout)) ∧
    (∀ data2 i4, read_data pin mx data idx = (data2, i4, some .Data) →
      ∃ c1 i1 c2 i2 pairs, pulse_count false pin mx idx = .ok (c1, i1) ∧ c1 ≠ 0 ∧
        pulse_count true pin mx i1 = .ok (c2, i2) ∧ c2 ≠ 0 ∧
        measure_pairs pin mx 40 i2 = .ok (pairs, i4) ∧
        ∃ p ∈ pairs, p.1 = 0 ∨ p.2 = 0) := by
  constructor
  · intro c1 i1 c2 i2 h1 hc1 h2 hc2 h40
    simp [read_data, h1, hc1, h2, hc2, h40]
  · intro data2 i4 h
    rcases h1 : pulse_count false pin mx idx with e1 | ⟨c1, i1⟩
    · have he := pulse_count_aux_error false pin mx idx e1 h1
      subst he
      simp [read_data, h1] at h
    · by_cases hc1 : c1 = 0
      · simp [read_data, h1, hc1] at h
      · rcases h2 : pulse_count true pin mx i1 with e2 | ⟨c2, i2⟩
        · have he := pulse_count_aux_error true pin mx i1 e2 h2
          subst he
          simp [read_data, h1, hc1, h2] at h
        · by_cases hc2 : c2 = 0
          · simp [read_data, h1, hc1, h2, hc2] at h
          · rcases h3 : measure_pairs pin mx 40 i2 with e3 | ⟨pairs, i3⟩
            · have he := measure_pairs_error pin mx 40 i2 e3 h3
              subst he
              simp [read_data, h1, hc1, h2, hc2, h3] at h
            · rcases h4 : decode_bits_from 0 pairs data with ⟨data3, err⟩
              cases err with
              | none =>
                rcases h5 : checksum data3 with e5 | u
                · have he := checksum_error data3 e5 h5
                  subst he
                  simp [read_data, h1, hc1, h2, hc2, h3, h4, h5] at h
                · simp [read_data, h1, hc1, h2, hc2, h3, h4, h5] at h
              | some e4 =>
                obtain ⟨he, hzero⟩ := decode_bits_from_error pairs 0 data data3 e4 h4
                subst he
                have h6 : read_data pin mx data idx = (data3, i3, some .Data) := by
                  simp [read_data, h1, hc1, h2, hc2, h3, h4]
                rw [h6] at h
                simp only [Prod.mk.injEq, Option.some.injEq, and_true] at h
                obtain ⟨hd2, hi2⟩ := h
                exact ⟨c1, i1, c2, i2, pairs, rfl, hc1, h2, hc2, hi2 ▸ h3, hzero⟩

theorem timeout_precedence_over_data_witness :
    pulse_count false pinD 10000 4 = .ok (0, 5) ∧
    read_data pinD 10000 (List.replicate 5 0) 0 =
      (List.replicate 5 0, 4, some .Timeout) := by
  have hstuck : pulse_count false pinD 10000 7 = .error .Timeout :=
    pulse_count_aux_stuck false pinD 10000 7 fun k hk => by
      simp only [pinD, decide_eq_false_iff_not]
      omega
  have h40 : measure_pairs pinD 10000 40 4 = .error .Timeout := by
    have h0 : pulse_count false pinD 10000 4 = .ok (0, 5) := rfl
    have h1 : pulse_count true pinD 10000 5 = .ok (1, 7) := rfl
    rw [show (40 : Nat) = 39 + 1 from rfl,
      measure_pairs_cons pinD 10000 39 4 0 5 1 7 h0 h1,
      show (39 : Nat) = 38 + 1 from rfl,
      measure_pairs_timeout_first pinD 10000 38 7 hstuck]
  exact ⟨rfl,
    (timeout_precedence_over_data pinD 10000 (List.replicate 5 0) 0).1 1 2 1 4
      rfl (by decide) rfl (by decide) h40⟩

/-- C8: the raw frame `[0x32, 0x00, 0x18, 0x00, 0x4A]` passes checksum
validation and yields the measurement 50 / 24 (each the byte-pair sum
integral + decimal); an intact well-formed transmission of those bytes
decodes end to end; and the same frame with checksum byte `0x4B` fails with
`Checksum`. -/
theorem frame_scenario_end_to_end :
    checksum [50, 0, 24, 0, 74] = .ok () ∧
    read_humidity [50, 0, 24, 0, 74] = 50 ∧
    read_temperature [50, 0, 24, 0, 74] = 24 ∧
    read_data pinC8 10000 (List.replicate 5 0) 0 = ([50, 0, 24, 0, 74], 204, none) ∧
    measure Dht11.new pinC8 (fun k => k) =
      some (⟨[50, 0, 24, 0, 74], .Cooldown, 10000, 3⟩, .ok ⟨50, 24⟩) ∧
    checksum [50, 0, 24, 0, 75] = .error .Checksum :=
  ⟨rfl, rfl, rfl, rfl, rfl, rfl⟩

end DhtDriver
